import Mathlib

/-
Verification of the stateman-cli core: the persistent immutable collection
engine (src/utils/customImmutableUtils.js) and the reactive dependency
tracking engine (src/utils/customVanUtils.js).

Modelling conventions for the shallow embedding:
- JS values are the inductive JsValue. Ordinary numbers are modelled as
  integers (all keys, indices and claim inputs are integers), and the
  IEEE NaN value, the one number that is not strictly equal to itself,
  is the separate constructor nan. Every container
  (persistent Map and List, plain object and array) carries an allocation
  id. Operations thread an allocation counter and give freshly created
  containers fresh ids, so Lean equality of two container values produced
  in one allocation stream coincides with JS reference identity, and jsEq
  below models the JS strict equality operator.
- Keys and path segments are PathKey: a string or an integer. JS property
  access stringifies integer keys for keyed containers, which keyStr
  models. Strings that themselves numerically coerce on array indices
  (such as the string "0" used as a sequence index) are outside the model;
  no claim exercises them.
- Functions passed to update and updatePath are modelled as
  Option (JsValue -> JsValue): some f is a callable argument, none is a
  non-function argument, and jsCall raises the TypeError a JS call on a
  non-callable raises. This is the only point in the collection engine
  where JS can throw, so the update family returns Except and every other
  operation is a total Lean function.
-/

mutual

inductive JsValue where
  | undef
  | null
  | bool (b : Bool)
  | num (n : Int)
  | nan
  | str (s : String)
  | mapv (m : JsMap)
  | listv (l : JsList)
  | objv (o : JsObj)
  | arrv (a : JsArr)

/-- ImmutableMap: allocation id and the frozen _data entries in insertion order. -/
inductive JsMap where
  | mk (id : Nat) (entries : JsEntries)

/-- ImmutableSequence (class List in the source): allocation id and elements. -/
inductive JsList where
  | mk (id : Nat) (elems : JsElems)

/-- A plain JS object: allocation id and own enumerable entries in insertion order. -/
inductive JsObj where
  | mk (id : Nat) (entries : JsEntries)

/-- A plain JS array: allocation id and elements. -/
inductive JsArr where
  | mk (id : Nat) (elems : JsElems)

inductive JsEntries where
  | nil
  | cons (k : String) (v : JsValue) (rest : JsEntries)

inductive JsElems where
  | nil
  | cons (v : JsValue) (rest : JsElems)

end

def JsMap.entriesOf : JsMap → JsEntries
  | .mk _ es => es

def JsMap.idOf : JsMap → Nat
  | .mk i _ => i

def JsList.elemsOf : JsList → JsElems
  | .mk _ es => es

def JsList.idOf : JsList → Nat
  | .mk i _ => i

/-- Source isImmutable: true exactly on the two persistent container classes
(the IMMUTABLE_MARKER symbol is defined on Map and List instances only). -/
def isImmutable : JsValue → Bool
  | .mapv _ => true
  | .listv _ => true
  | _ => false

/-- A value the source treats as opaque: null or not of typeof object.
These are returned unchanged by fromJS. -/
def isScalar : JsValue → Bool
  | .undef => true
  | .null => true
  | .bool _ => true
  | .num _ => true
  | .nan => true
  | .str _ => true
  | _ => false

/-- A path segment or key argument: a string or an integer number. -/
inductive PathKey where
  | str (s : String)
  | num (n : Int)

/-- JS property-key coercion: integer keys used on a keyed container are
stringified. -/
def keyStr : PathKey → String
  | .str s => s
  | .num n => toString n

/-- Own-property lookup on an entries snapshot (hasOwnProperty plus access). -/
def lookupEntry : JsEntries → String → Option JsValue
  | .nil, _ => none
  | .cons k v rest, k' => if k = k' then some v else lookupEntry rest k'

def hasKey : JsEntries → String → Bool
  | .nil, _ => false
  | .cons k _ rest, k' => k = k' || hasKey rest k'

/-- The object spread with a computed key: an existing key keeps its
position and gets the new value, a new key is appended at the end. -/
def setEntry : JsEntries → String → JsValue → JsEntries
  | .nil, k, v => .cons k v .nil
  | .cons k' v' rest, k, v =>
      if k' = k then .cons k v rest else .cons k' v' (setEntry rest k v)

def lenE : JsEntries → Nat
  | .nil => 0
  | .cons _ _ rest => lenE rest + 1

def lenEl : JsElems → Nat
  | .nil => 0
  | .cons _ rest => lenEl rest + 1

def getAt : JsElems → Nat → Option JsValue
  | .nil, _ => none
  | .cons v _, 0 => some v
  | .cons _ rest, n + 1 => getAt rest n

/-- Write at an index that is at most the length; at the length this
appends (only reachable under the bounds guard of JsList.set). -/
def setElemAt : JsElems → Nat → JsValue → JsElems
  | .nil, _, v => .cons v .nil
  | .cons _ rest, 0, v => .cons v rest
  | .cons w rest, n + 1, v => .cons w (setElemAt rest n v)

def appendEl : JsElems → JsValue → JsElems
  | .nil, v => .cons v .nil
  | .cons w rest, v => .cons w (appendEl rest v)

/-- Array splice removing one element at the given index. -/
def removeAt : JsElems → Nat → JsElems
  | .nil, _ => .nil
  | .cons _ rest, 0 => rest
  | .cons w rest, n + 1 => .cons w (removeAt rest n)

mutual

/-- JS strict equality. Ordinary scalars compare by value; NaN is
strictly equal to nothing, itself included, so the nan arm is false;
containers compare as references, which under the fresh-allocation
discipline is Lean equality of the id together with the contents. -/
def jsEq : JsValue → JsValue → Bool
  | .undef, .undef => true
  | .null, .null => true
  | .bool a, .bool b => a == b
  | .num a, .num b => a == b
  | .nan, .nan => false
  | .str a, .str b => a == b
  | .mapv (.mk i a), .mapv (.mk j b) => i == j && jsEqEntries a b
  | .listv (.mk i a), .listv (.mk j b) => i == j && jsEqElems a b
  | .objv (.mk i a), .objv (.mk j b) => i == j && jsEqEntries a b
  | .arrv (.mk i a), .arrv (.mk j b) => i == j && jsEqElems a b
  | _, _ => false

def jsEqEntries : JsEntries → JsEntries → Bool
  | .nil, .nil => true
  | .cons k v r, .cons k' v' r' => k == k' && jsEq v v' && jsEqEntries r r'
  | _, _ => false

def jsEqElems : JsElems → JsElems → Bool
  | .nil, .nil => true
  | .cons v r, .cons v' r' => jsEq v v' && jsEqElems r r'
  | _, _ => false

end

mutual

/-- Source fromJS: scalars and already-immutable values are returned
unchanged; an array becomes a List of recursively converted elements; any
other object becomes a Map of recursively converted values. The Nat
argument is the allocation counter; each freshly constructed container
takes the current counter as its id. -/
def fromJS : JsValue → Nat → JsValue × Nat
  | .objv (.mk _ es), c =>
      ((.mapv (.mk (fromJSEntries es c).2 (fromJSEntries es c).1) : JsValue),
       (fromJSEntries es c).2 + 1)
  | .arrv (.mk _ vs), c =>
      ((.listv (.mk (fromJSElems vs c).2 (fromJSElems vs c).1) : JsValue),
       (fromJSElems vs c).2 + 1)
  | v, c => (v, c)

def fromJSEntries : JsEntries → Nat → JsEntries × Nat
  | .nil, c => (.nil, c)
  | .cons k v rest, c =>
      (.cons k (fromJS v c).1 (fromJSEntries rest (fromJS v c).2).1,
       (fromJSEntries rest (fromJS v c).2).2)

def fromJSElems : JsElems → Nat → JsElems × Nat
  | .nil, c => (.nil, c)
  | .cons v rest, c =>
      (.cons (fromJS v c).1 (fromJSElems rest (fromJS v c).2).1,
       (fromJSElems rest (fromJS v c).2).2)

end

/-- The Map constructor: shallow-copies the supplied data into the frozen
backing store without converting any value (contrast with fromJS). The new
instance takes a fresh allocation id. -/
def JsMap.ofData (data : JsEntries) (c : Nat) : JsMap × Nat :=
  (.mk c data, c + 1)

/-- The List constructor: shallow-copies the supplied elements without
converting them. -/
def JsList.ofData (data : JsElems) (c : Nat) : JsList × Nat :=
  (.mk c data, c + 1)

/-- Map.get(key, defaultValue): the stored value when the key is an own
property, the default otherwise. -/
def JsMap.get (m : JsMap) (k : PathKey) (dflt : JsValue) : JsValue :=
  match lookupEntry m.entriesOf (keyStr k) with
  | some v => v
  | none => dflt

/-- Map.set(key, value): a new Map whose backing store is the spread of the
old one with the key bound to fromJS(value). -/
def JsMap.set (m : JsMap) (k : PathKey) (v : JsValue) (c : Nat) : JsMap × Nat :=
  let v' := (fromJS v c).1
  let c' := (fromJS v c).2
  (.mk c' (setEntry m.entriesOf (keyStr k) v'), c' + 1)

/-- List.get(index, defaultValue) for an integer index. -/
def JsList.getNum (l : JsList) (n : Int) (dflt : JsValue) : JsValue :=
  if 0 ≤ n ∧ n < (lenEl l.elemsOf : Int) then
    match getAt l.elemsOf n.toNat with
    | some v => v
    | none => dflt
  else dflt

/-- List.get with a PathKey index: a string index fails the numeric bounds
comparison and yields the default. -/
def JsList.get (l : JsList) (i : PathKey) (dflt : JsValue) : JsValue :=
  match i with
  | .num n => JsList.getNum l n dflt
  | .str _ => dflt

/-- List.set(index, value): index below 0 or above the length is a no-op
returning the original list; index equal to the length appends; otherwise
the element is replaced by fromJS(value). -/
def JsList.set (l : JsList) (n : Int) (v : JsValue) (c : Nat) : JsList × Nat :=
  if n < 0 ∨ (lenEl l.elemsOf : Int) < n then (l, c)
  else
    let v' := (fromJS v c).1
    let c' := (fromJS v c).2
    (.mk c' (setElemAt l.elemsOf n.toNat v'), c' + 1)

/-- List.push(value): appends fromJS(value) in a new list. -/
def JsList.push (l : JsList) (v : JsValue) (c : Nat) : JsList × Nat :=
  let v' := (fromJS v c).1
  let c' := (fromJS v c).2
  (.mk c' (appendEl l.elemsOf v'), c' + 1)

/-- List.delete(index): out-of-range index is a no-op; otherwise the element
is spliced out of a copy. -/
def JsList.del (l : JsList) (n : Int) (c : Nat) : JsList × Nat :=
  if n < 0 ∨ (lenEl l.elemsOf : Int) ≤ n then (l, c)
  else (.mk c (removeAt l.elemsOf n.toNat), c + 1)

/-- The getIn walk shared verbatim by Map.getIn and List.getIn: starting
from the receiver, each segment must find an own key on a Map or an
in-range integer index on a List; any other situation returns the default
immediately. -/
def getInAux : JsValue → List PathKey → JsValue → JsValue
  | cur, [], _ => cur
  | cur, k :: rest, dflt =>
    match cur, k with
    | .mapv m, k =>
        match lookupEntry m.entriesOf (keyStr k) with
        | some v => getInAux v rest dflt
        | none => dflt
    | .listv l, .num n =>
        if 0 ≤ n ∧ n < (lenEl l.elemsOf : Int) then
          match getAt l.elemsOf n.toNat with
          | some v => getInAux v rest dflt
          | none => dflt
        else dflt
    | _, _ => dflt

def JsMap.getIn (m : JsMap) (p : List PathKey) (dflt : JsValue) : JsValue :=
  getInAux (.mapv m) p dflt

def JsList.getIn (l : JsList) (p : List PathKey) (dflt : JsValue) : JsValue :=
  getInAux (.listv l) p dflt

mutual

/-- Map.setIn(path, value): an empty path replaces the receiver by
fromJS(value); a single segment is Map.set; otherwise the walk recurses
into an existing immutable child, or materializes a fresh List when the
next segment is numeric and a fresh Map otherwise, and binds the rebuilt
branch with Map.set. -/
def JsMap.setIn (m : JsMap) (p : List PathKey) (v : JsValue) (c : Nat) : JsValue × Nat :=
  match p with
  | [] => fromJS v c
  | [k] =>
      ((.mapv (JsMap.set m k v c).1 : JsValue), (JsMap.set m k v c).2)
  | k :: k2 :: rest2 =>
      let cur := JsMap.get m k .undef
      let nbc :=
        match cur with
        | .mapv m2 => JsMap.setIn m2 (k2 :: rest2) v c
        | .listv l2 => JsList.setIn l2 (k2 :: rest2) v c
        | _ =>
            match k2 with
            | .num _ => JsList.setIn (.mk c .nil) (k2 :: rest2) v (c + 1)
            | _ => JsMap.setIn (.mk c .nil) (k2 :: rest2) v (c + 1)
      ((.mapv (JsMap.set m k nbc.1 nbc.2).1 : JsValue), (JsMap.set m k nbc.1 nbc.2).2)
termination_by structural p

/-- List.setIn(path, value): an empty path replaces the receiver by
fromJS(value); a non-numeric or negative first segment warns and returns
the receiver unchanged; a single segment is List.set; otherwise as for
Map.setIn with List.set binding the rebuilt branch. -/
def JsList.setIn (l : JsList) (p : List PathKey) (v : JsValue) (c : Nat) : JsValue × Nat :=
  match p with
  | [] => fromJS v c
  | .str _ :: _ => (.listv l, c)
  | .num n :: rest =>
      if n < 0 then (.listv l, c)
      else
        match rest with
        | [] =>
            ((.listv (JsList.set l n v c).1 : JsValue), (JsList.set l n v c).2)
        | k2 :: rest2 =>
            let cur := JsList.getNum l n .undef
            let nbc :=
              match cur with
              | .mapv m2 => JsMap.setIn m2 (k2 :: rest2) v c
              | .listv l2 => JsList.setIn l2 (k2 :: rest2) v c
              | _ =>
                  match k2 with
                  | .num _ => JsList.setIn (.mk c .nil) (k2 :: rest2) v (c + 1)
                  | _ => JsMap.setIn (.mk c .nil) (k2 :: rest2) v (c + 1)
            ((.listv (JsList.set l n nbc.1 nbc.2).1 : JsValue), (JsList.set l n nbc.1 nbc.2).2)
termination_by structural p

end

/-- The error a JS engine raises when a non-function is called. -/
inductive JsErr where
  | notCallable

/-- Calling an argument value: a TypeError when it is not callable,
otherwise the application of the function. Updater functions themselves
are modelled as total (the claims assume a function that does not throw)
and pure (the claims only use value-returning updaters). -/
def jsCall (f : Option (JsValue → JsValue)) (v : JsValue) : Except JsErr JsValue :=
  match f with
  | none => .error .notCallable
  | some g => .ok (g v)

/-- Map.update(key, updaterFn): always writes set(key, updaterFn(get(key))),
even for an absent key (whose current value is undefined). -/
def JsMap.update (m : JsMap) (k : PathKey) (f : Option (JsValue → JsValue)) (c : Nat) :
    Except JsErr (JsMap × Nat) :=
  (jsCall f (JsMap.get m k .undef)).map (fun v => JsMap.set m k v c)

/-- Map.updateIn(path, updaterFn): an empty path returns updaterFn(this)
directly; otherwise setIn(path, updaterFn(getIn(path))). -/
def JsMap.updateIn (m : JsMap) (p : List PathKey) (f : Option (JsValue → JsValue)) (c : Nat) :
    Except JsErr (JsValue × Nat) :=
  match p with
  | [] => (jsCall f (.mapv m)).map (fun v => (v, c))
  | _ => (jsCall f (JsMap.getIn m p .undef)).map (fun v => JsMap.setIn m p v c)

/-- List.update(index, updaterFn): reads the current value and, when that
value is strictly equal to undefined (absent index, or a stored undefined
element), returns the receiver without touching updaterFn; otherwise
set(index, updaterFn(currentValue)). -/
def JsList.update (l : JsList) (i : PathKey) (f : Option (JsValue → JsValue)) (c : Nat) :
    Except JsErr (JsList × Nat) :=
  let cur := JsList.get l i .undef
  if jsEq cur .undef then .ok (l, c)
  else
    match i with
    | .num n => (jsCall f cur).map (fun v => JsList.set l n v c)
    | .str _ => .ok (l, c)

/-- List.updateIn(path, updaterFn): same shape as Map.updateIn. -/
def JsList.updateIn (l : JsList) (p : List PathKey) (f : Option (JsValue → JsValue)) (c : Nat) :
    Except JsErr (JsValue × Nat) :=
  match p with
  | [] => (jsCall f (.listv l)).map (fun v => (v, c))
  | _ => (jsCall f (JsList.getIn l p .undef)).map (fun v => JsList.setIn l p v c)

mutual

/-- Dispatch of the equals method: a Map receiver requires a Map argument,
a List receiver a List argument (the instanceof checks). -/
def equalsVal : JsValue → JsValue → Bool
  | .mapv m, o =>
      match o with
      | .mapv o2 => mapEquals m o2
      | _ => false
  | .listv l, o =>
      match o with
      | .listv o2 => listEquals l o2
      | _ => false
  | a, b => jsEq a b
termination_by structural v _ => v

/-- Map.equals: reference equality shortcut, then same key count and every
own key of the receiver present in the other with matching value
(recursively via equals when both sides are persistent containers, by
strict equality otherwise; see entryEq below for the named form). -/
def mapEquals : JsMap → JsMap → Bool
  | .mk i es, .mk j os =>
      jsEq (.mapv (.mk i es)) (.mapv (.mk j os)) ||
        (lenE es == lenE os && eqEntries es os)
termination_by structural m _ => m

/-- List.equals: reference equality shortcut, then same length and
pairwise matching elements. -/
def listEquals : JsList → JsList → Bool
  | .mk i es, .mk j os =>
      jsEq (.listv (.mk i es)) (.listv (.mk j os)) ||
        (lenEl es == lenEl os && eqElems es os)
termination_by structural l _ => l

/-- The key loop of Map.equals: iterate the receiver entries, looking each
key up in the full entries of the other map. -/
def eqEntries : JsEntries → JsEntries → Bool
  | .nil, _ => true
  | .cons k v rest, os =>
      (match lookupEntry os k with
       | none => false
       | some ov => if isImmutable v && isImmutable ov then equalsVal v ov else jsEq v ov) &&
        eqEntries rest os
termination_by structural es _ => es

/-- The index loop of List.equals (lengths already checked equal). -/
def eqElems : JsElems → JsElems → Bool
  | .nil, .nil => true
  | .cons v rest, .cons ov orest =>
      (if isImmutable v && isImmutable ov then equalsVal v ov else jsEq v ov) &&
        eqElems rest orest
  | _, _ => false
termination_by structural es _ => es

end

/-- The per-entry comparison both equals methods apply, as a named
abbreviation of the inlined conditional above. -/
def entryEq (a b : JsValue) : Bool :=
  if isImmutable a && isImmutable b then equalsVal a b else jsEq a b

mutual

/-- Map.toJS: a fresh plain object whose values are recursively converted
when they expose a toJS method (the two persistent classes) and copied
as-is otherwise. -/
def mapToJS : JsMap → Nat → JsValue × Nat
  | .mk _ es, c =>
      let (es2, c2) := toJSEntries es c
      (.objv (.mk c2 es2), c2 + 1)
termination_by m _ => sizeOf m
decreasing_by all_goals simp_wf <;> omega

/-- List.toJS: a fresh plain array mapping isImmutable elements through
toJS and copying the rest. -/
def listToJS : JsList → Nat → JsValue × Nat
  | .mk _ es, c =>
      let (es2, c2) := toJSElems es c
      (.arrv (.mk c2 es2), c2 + 1)
termination_by l _ => sizeOf l
decreasing_by all_goals simp_wf <;> omega

def toJSEntries : JsEntries → Nat → JsEntries × Nat
  | .nil, c => (.nil, c)
  | .cons k v rest, c =>
      let (v2, c2) :=
        match v with
        | .mapv m => mapToJS m c
        | .listv l => listToJS l c
        | other => (other, c)
      let (rest2, c3) := toJSEntries rest c2
      (.cons k v2 rest2, c3)
termination_by es _ => sizeOf es
decreasing_by all_goals simp_wf <;> omega

def toJSElems : JsElems → Nat → JsElems × Nat
  | .nil, c => (.nil, c)
  | .cons v rest, c =>
      let (v2, c2) :=
        match v with
        | .mapv m => mapToJS m c
        | .listv l => listToJS l c
        | other => (other, c)
      let (rest2, c3) := toJSElems rest c2
      (.cons v2 rest2, c3)
termination_by es _ => sizeOf es
decreasing_by all_goals simp_wf <;> omega

end

mutual

/-- Well-formedness of a modelled JS value: keyed snapshots never carry a
duplicate key, matching what a real JS object can hold. Values built by
the public API from well-formed inputs stay well-formed. -/
def wfV : JsValue → Bool
  | .mapv (.mk _ es) => wfEntries es
  | .listv (.mk _ es) => wfElems es
  | .objv (.mk _ es) => wfEntries es
  | .arrv (.mk _ es) => wfElems es
  | _ => true

def wfEntries : JsEntries → Bool
  | .nil => true
  | .cons k v rest => !hasKey rest k && wfV v && wfEntries rest

def wfElems : JsElems → Bool
  | .nil => true
  | .cons v rest => wfV v && wfElems rest

end

mutual

/-- A value containing no NaN anywhere. JS strict equality is reflexive
exactly on such values, so they are the ones on which the source equals
method can recognise a value as equal to a copy of itself. -/
def nanFree : JsValue → Bool
  | .nan => false
  | .mapv (.mk _ es) => nanFreeEntries es
  | .listv (.mk _ es) => nanFreeElems es
  | .objv (.mk _ es) => nanFreeEntries es
  | .arrv (.mk _ es) => nanFreeElems es
  | _ => true

def nanFreeEntries : JsEntries → Bool
  | .nil => true
  | .cons _ v rest => nanFree v && nanFreeEntries rest

def nanFreeElems : JsElems → Bool
  | .nil => true
  | .cons v rest => nanFree v && nanFreeElems rest

end

/-
Reactive engine (src/utils/customVanUtils.js). Dependents stored in the
_dependents sets are closures; the model names them: Dep.updater d is the
plain updater closure a derivation registers during its first
construction pass (it recomputes the cache and notifies nobody),
Dep.notify d is the same derivation's _updateAndNotify routine, and
Dep.cb i is an external callback registered through _subscribe that
increments observation counter i. User computation functions are the
small expression language Exp, whose readS and readD constructors model
reading s.val (registering the current context as a dependent) and whose
tick constructor models an observation counter incremented inside the
function body.
-/

inductive Dep where
  | updater (d : Nat)
  | notify (d : Nat)
  | cb (i : Nat)
deriving DecidableEq

inductive Exp where
  | const (v : JsValue)
  | readS (s : Nat)
  | readD (d : Nat)
  | app (f : JsValue → JsValue) (e : Exp)
  | tick (i : Nat) (e : Exp)

/-- A signal cell: current value and registered dependents in insertion
order (the JS Set preserves insertion order). -/
structure SigCell where
  val : JsValue
  deps : List Dep

/-- A derivation cell: the cached derivedVal, the derivedState
_dependents set, and the computation function. -/
structure DrvCell where
  val : JsValue
  deps : List Dep
  comp : Exp

/-- The reactive world: signals and derivations by creation index,
observation counters, and the module-level currentContext slot. -/
structure RWorld where
  sigs : List SigCell
  drvs : List DrvCell
  ctrs : List Nat
  ctx : Option Dep

def getSig (w : RWorld) (s : Nat) : SigCell :=
  (w.sigs[s]?).getD ⟨.undef, []⟩

def getDrv (w : RWorld) (d : Nat) : DrvCell :=
  (w.drvs[d]?).getD ⟨.undef, [], .const .undef⟩

def setCtx (o : Option Dep) (w : RWorld) : RWorld :=
  { w with ctx := o }

def setSigVal (w : RWorld) (s : Nat) (v : JsValue) : RWorld :=
  { w with sigs := w.sigs.set s { getSig w s with val := v } }

def setDrvVal (w : RWorld) (d : Nat) (v : JsValue) : RWorld :=
  { w with drvs := w.drvs.set d { getDrv w d with val := v } }

/-- Set.add: appends the dependent unless it is already registered. -/
def addDep (l : List Dep) (d : Dep) : List Dep :=
  if d ∈ l then l else l ++ [d]

def addSigDep (w : RWorld) (s : Nat) (d : Dep) : RWorld :=
  { w with sigs := w.sigs.set s { getSig w s with deps := addDep (getSig w s).deps d } }

def addDrvDep (w : RWorld) (d : Nat) (dep : Dep) : RWorld :=
  { w with drvs := w.drvs.set d { getDrv w d with deps := addDep (getDrv w d).deps dep } }

def ctrVal (w : RWorld) (i : Nat) : Nat :=
  (w.ctrs[i]?).getD 0

def bumpCtr (w : RWorld) (i : Nat) : RWorld :=
  { w with ctrs := w.ctrs.set i (ctrVal w i + 1) }

/-- Run a computation function. Reading a signal or derivation registers
the currently active context (if any) into that cell's dependent set and
returns the current value; tick increments an observation counter. -/
def evalExp : Exp → RWorld → JsValue × RWorld
  | .const v, w => (v, w)
  | .readS s, w =>
      let w1 :=
        match w.ctx with
        | some dep => addSigDep w s dep
        | none => w
      ((getSig w1 s).val, w1)
  | .readD d, w =>
      let w1 :=
        match w.ctx with
        | some dep => addDrvDep w d dep
        | none => w
      ((getDrv w1 d).val, w1)
  | .app f e, w =>
      let (v, w1) := evalExp e w
      (f v, w1)
  | .tick i e, w => evalExp e (bumpCtr w i)

mutual

/-- Invoke one registered dependent, with fuel bounding the synchronous
notification recursion (none signals fuel exhaustion, never reached at
the depths the claims use). The updater closure saves and restores
currentContext around re-running the computation and never notifies; the
_updateAndNotify routine additionally compares the old cached value with
the new one by strict equality and, when different, invokes a snapshot of
its own dependents in registration order; an external callback just
increments its counter. -/
def runDep : Nat → Dep → RWorld → Option RWorld
  | 0, _, _ => none
  | _ + 1, .cb i, w => some (bumpCtr w i)
  | _ + 1, .updater d, w =>
      let old := w.ctx
      let (v, w1) := evalExp (getDrv w d).comp (setCtx (some (.updater d)) w)
      some (setCtx old (setDrvVal w1 d v))
  | fuel + 1, .notify d, w =>
      let oldInternal := (getDrv w d).val
      let old := w.ctx
      let (v, w1) := evalExp (getDrv w d).comp (setCtx (some (.notify d)) w)
      let w2 := setCtx old (setDrvVal w1 d v)
      if jsEq oldInternal v then some w2
      else runDeps fuel (getDrv w2 d).deps w2

def runDeps : Nat → List Dep → RWorld → Option RWorld
  | 0, _, _ => none
  | _ + 1, [], w => some w
  | fuel + 1, d :: ds, w =>
      match runDep fuel d w with
      | some w1 => runDeps fuel ds w1
      | none => none

end

/-- state(initialValue): a new signal cell with an empty dependent set,
appended at index sigs.length. -/
def mkSignal (v : JsValue) (w : RWorld) : RWorld :=
  { w with sigs := w.sigs ++ [⟨v, []⟩] }

/-- The _subscribe escape hatch: directly add a dependent to a signal. -/
def subscribeSig (w : RWorld) (s : Nat) (d : Dep) : RWorld :=
  addSigDep w s d

/-- The val setter of state: when the new value is strictly equal to the
current one nothing happens; otherwise the value is stored and a snapshot
of the dependents is invoked in registration order. -/
def writeSig (fuel : Nat) (s : Nat) (v : JsValue) (w : RWorld) : Option RWorld :=
  if jsEq (getSig w s).val v then some w
  else
    let w1 := setSigVal w s v
    runDeps fuel (getSig w1 s).deps w1

/-- derive(computationFn), as the source executes it: the new derivation
takes index drvs.length with an uninitialized cache; the first pass (lines
73-79) runs the computation with currentContext set to the plain updater
closure, caching the result; then (lines 145-151) currentContext is set to
_updateAndNotify and _updateAndNotify() itself is invoked once, re-running
the computation with itself as the context and registering it as a second
dependent of everything the computation reads. -/
def derive (fuel : Nat) (comp : Exp) (w : RWorld) : Option RWorld :=
  let d := w.drvs.length
  let w0 := { w with drvs := w.drvs ++ [⟨.undef, [], comp⟩] }
  let old := w0.ctx
  let (v1, w1) := evalExp comp (setCtx (some (.updater d)) w0)
  let w2 := setCtx old (setDrvVal w1 d v1)
  let old2 := w2.ctx
  let w3 := setCtx (some (.notify d)) w2
  match runDep fuel (.notify d) w3 with
  | none => none
  | some w4 => some (setCtx old2 w4)

/-- derive with the callable check made explicit: calling derive with a
non-function throws a TypeError at the very first computationFn() call,
before any observable state change (the context slot is restored by the
finally block). -/
def deriveChecked (fuel : Nat) (cf : Option Exp) (w : RWorld) :
    Except JsErr (Option RWorld) :=
  match cf with
  | none => .error .notCallable
  | some comp => .ok (derive fuel comp w)

/-- read() of a derivation: registers the active context as a dependent
and returns the cached value (a top-level read has no active context). -/
def readDrv (d : Nat) (w : RWorld) : JsValue × RWorld :=
  evalExp (.readD d) w

/-
Supporting lemmas.
-/

theorem lookup_setEntry_self : ∀ (es : JsEntries) (k : String) (v : JsValue),
    lookupEntry (setEntry es k v) k = some v
  | .nil, k, v => by simp [setEntry, lookupEntry]
  | .cons k' v' rest, k, v => by
      by_cases h : k' = k
      · simp [setEntry, h, lookupEntry]
      · simp [setEntry, h, lookupEntry, lookup_setEntry_self rest k v]

theorem lookup_setEntry_ne : ∀ (es : JsEntries) (k k2 : String) (v : JsValue), k2 ≠ k →
    lookupEntry (setEntry es k v) k2 = lookupEntry es k2
  | .nil, k, k2, v, h => by
      simp [setEntry, lookupEntry]
      intro hh
      exact absurd hh.symm h
  | .cons k' v' rest, k, k2, v, h => by
      by_cases hk : k' = k
      · subst hk
        have : ¬ (k' = k2) := fun hh => h (hh ▸ rfl)
        simp [setEntry, lookupEntry, this]
      · simp only [setEntry, hk, if_false, lookupEntry]
        by_cases h2 : k' = k2
        · simp [h2]
        · simp [h2, lookup_setEntry_ne rest k k2 v h]

theorem getAt_lt : ∀ (es : JsElems) (i : Nat) (u : JsValue),
    getAt es i = some u → i < lenEl es
  | .nil, i, u, h => by simp [getAt] at h
  | .cons v rest, 0, u, _ => by simp [lenEl]
  | .cons v rest, i + 1, u, h => by
      have := getAt_lt rest i u h
      simp [lenEl]
      omega

theorem setElemAt_len : ∀ (es : JsElems) (v : JsValue),
    setElemAt es (lenEl es) v = appendEl es v
  | .nil, v => rfl
  | .cons w rest, v => by
      simp [lenEl, setElemAt, appendEl, setElemAt_len rest v]

theorem jsEq_undef_iff : ∀ x : JsValue, jsEq x .undef = true ↔ x = .undef := by
  intro x
  cases x with
  | undef => simp [jsEq]
  | null => simp [jsEq]
  | bool b => simp [jsEq]
  | num n => simp [jsEq]
  | nan => simp [jsEq]
  | str s => simp [jsEq]
  | mapv m => cases m with | mk i a => simp [jsEq]
  | listv l => cases l with | mk i a => simp [jsEq]
  | objv o => cases o with | mk i a => simp [jsEq]
  | arrv ar => cases ar with | mk i a => simp [jsEq]

theorem fromJS_scalar : ∀ (v : JsValue), isScalar v = true → ∀ c, fromJS v c = (v, c) := by
  intro v h c
  cases v <;> simp_all [isScalar, fromJS]

theorem fromJS_immutable : ∀ (v : JsValue), isImmutable v = true → ∀ c, fromJS v c = (v, c) := by
  intro v h c
  cases v <;> simp_all [isImmutable, fromJS]

/-
Claim theorems.
-/

def c1Start : RWorld := mkSignal (.num 1) ⟨[], [], [], none⟩

/-- The computation of the first derivation: () => s.read() * 2. -/
def c1Double : Exp :=
  .app (fun v => match v with | .num n => .num (2 * n) | _ => .undef) (.readS 0)

/-- The computation of the second derivation: () => d1.read() + 1. -/
def c1AddOne : Exp :=
  .app (fun v => match v with | .num n => .num (n + 1) | _ => .undef) (.readD 0)

set_option maxHeartbeats 4000000 in
/-- C1 (code bug): two-hop propagation fails in the source. With
s = createSignal(1), d1 = createDerivation(() => s.read() * 2),
d2 = createDerivation(() => d1.read() + 1), after s.write(5) the claim
requires d2.read() = 11 = g(d1 updated value 10). The code instead leaves
d2.read() = 3: the first-pass updater closure registered on s runs before
d1's _updateAndNotify and silently refreshes d1's cache, so
_updateAndNotify sees no change and never notifies d2. d1 itself does
update to 10. -/
theorem claim1_two_hop_propagation_fails :
    (((derive 4 c1Double c1Start).bind (derive 4 c1AddOne)).bind
      (writeSig 4 0 (.num 5))).map (fun w => ((readDrv 0 w).1, (readDrv 1 w).1))
    = some (.num 10, .num 3) := rfl

def c4Start : RWorld := mkSignal (.num 1) ⟨[], [], [0], none⟩

set_option maxHeartbeats 2000000 in
/-- C4 (code bug): createDerivation executes computeFn twice during
construction, not once. A counter ticked inside the function ends at 2,
and the signal it reads ends up with two distinct registered dependents:
first the plain updater closure of the first pass, then _updateAndNotify.
The claim requires the counter to end at 1 with only the update routine
registered. -/
theorem claim4_compute_runs_twice :
    (derive 4 (.tick 0 (.readS 0)) c4Start).map
      (fun w => (ctrVal w 0, (getSig w 0).deps))
    = some (2, [.updater 0, .notify 0]) := rfl

/-- C5 counterexample: an ImmutableSequence holding undefined at index 0.
The index 0 is present (length 1), so the claim requires
update(0, fn) = set(0, fn(get(0))); the code instead returns the receiver
unchanged, and set(0, fn(get(0))) differs from the receiver. -/
theorem claim5_counterexample :
    JsList.update (.mk 0 (.cons .undef .nil)) (.num 0) (some (fun _ => .num 5)) 1
      = .ok (.mk 0 (.cons .undef .nil), 1) ∧
    (JsList.set (.mk 0 (.cons .undef .nil)) 0
        ((fun _ => (JsValue.num 5)) (JsList.getNum (.mk 0 (.cons .undef .nil)) 0 .undef)) 1).1
      ≠ JsList.mk 0 (.cons .undef .nil) := by
  refine ⟨rfl, ?_⟩
  simp [JsList.set, JsList.elemsOf, lenEl, fromJS, setElemAt]

/-- C5 as amended: Sequence.update applies set-of-fn exactly when the
current value at the index is non-undefined (in particular the index is
present); when the read yields undefined (absent index, or a stored
undefined element) it returns the receiver unchanged without calling fn.
Map.update always writes set(key, fn(get(key))), even for an absent key. -/
theorem claim5_amended (l : JsList) (n : Int) (f : JsValue → JsValue) (c : Nat)
    (m : JsMap) (k : PathKey) :
    (JsList.getNum l n .undef ≠ .undef →
        JsList.update l (.num n) (some f) c
          = .ok (JsList.set l n (f (JsList.getNum l n .undef)) c)) ∧
    (JsList.getNum l n .undef = .undef →
        JsList.update l (.num n) (some f) c = .ok (l, c)) ∧
    JsMap.update m k (some f) c = .ok (JsMap.set m k (f (JsMap.get m k .undef)) c) := by
  refine ⟨?_, ?_, rfl⟩
  · intro h
    have hb : jsEq (JsList.getNum l n .undef) .undef = false := by
      rw [Bool.eq_false_iff]
      intro hh
      exact h ((jsEq_undef_iff _).mp hh)
    simp [JsList.update, JsList.get, hb, jsCall, Except.map]
  · intro h
    have hb : jsEq (JsList.getNum l n .undef) .undef = true := by
      rw [jsEq_undef_iff]
      exact h
    simp [JsList.update, JsList.get, hb]

/-- C5 witness: the amended claim applied at a one-element sequence with a
present non-undefined index and at a Map with an absent key. -/
theorem claim5_amended_witness :
    JsList.update (.mk 0 (.cons (.num 1) .nil)) (.num 0) (some (fun _ => .num 7)) 3
      = .ok (JsList.set (.mk 0 (.cons (.num 1) .nil)) 0
          ((fun _ => (JsValue.num 7)) (JsList.getNum (.mk 0 (.cons (.num 1) .nil)) 0 .undef)) 3) ∧
    JsMap.update (.mk 0 .nil) (.str "a") (some (fun _ => .num 7)) 3
      = .ok (JsMap.set (.mk 0 .nil) (.str "a")
          ((fun _ => (JsValue.num 7)) (JsMap.get (.mk 0 .nil) (.str "a") .undef)) 3) :=
  ⟨(claim5_amended (.mk 0 (.cons (.num 1) .nil)) 0 (fun _ => .num 7) 3
      (.mk 0 .nil) (.str "a")).1 (fun h => JsValue.noConfusion h),
   (claim5_amended (.mk 0 (.cons (.num 1) .nil)) 0 (fun _ => .num 7) 3
      (.mk 0 .nil) (.str "a")).2.2⟩

/-- C6 counterexample: passing a non-function to Sequence.update at an
absent index (here index 0 of an empty sequence) is silently ignored: the
call returns the unchanged sequence instead of surfacing a hard failure. -/
theorem claim6_counterexample :
    JsList.update (.mk 0 .nil) (.num 0) none 1 = .ok (.mk 0 .nil, 1) := rfl

/-- C6 as amended: a non-function argument surfaces an immediate hard
failure from Map.update, Map.updateIn, Sequence.updateIn and
createDerivation for every receiver, key and path, and from
Sequence.update exactly when the value read at the index is not
undefined; when that read yields undefined, Sequence.update returns the
receiver unchanged without inspecting or calling the argument. -/
theorem claim6_amended (m : JsMap) (l : JsList) (k : PathKey) (n : Int)
    (p q : List PathKey) (c fuel : Nat) (w : RWorld) :
    JsMap.update m k none c = .error .notCallable ∧
    JsMap.updateIn m p none c = .error .notCallable ∧
    JsList.updateIn l q none c = .error .notCallable ∧
    (JsList.getNum l n .undef ≠ .undef →
        JsList.update l (.num n) none c = .error .notCallable) ∧
    (JsList.getNum l n .undef = .undef →
        JsList.update l (.num n) none c = .ok (l, c)) ∧
    deriveChecked fuel none w = .error .notCallable := by
  refine ⟨rfl, ?_, ?_, ?_, ?_, rfl⟩
  · cases p with
    | nil => rfl
    | cons a as => rfl
  · cases q with
    | nil => rfl
    | cons a as => rfl
  · intro h
    have hb : jsEq (JsList.getNum l n .undef) .undef = false := by
      rw [Bool.eq_false_iff]
      intro hh
      exact h ((jsEq_undef_iff _).mp hh)
    simp [JsList.update, JsList.get, hb, jsCall, Except.map]
  · intro h
    have hb : jsEq (JsList.getNum l n .undef) .undef = true := by
      rw [jsEq_undef_iff]
      exact h
    simp [JsList.update, JsList.get, hb]

/-- C6 witness: the amended claim at an empty Map, an empty Sequence with
paths of both shapes, index 0 of a one-element sequence, and an empty
reactive world. -/
theorem claim6_amended_witness :
    JsMap.update (.mk 0 .nil) (.str "a") none 1 = .error .notCallable ∧
    JsMap.updateIn (.mk 0 .nil) [.str "a"] none 1 = .error .notCallable ∧
    JsList.updateIn (.mk 0 .nil) [] none 1 = .error .notCallable ∧
    JsList.update (.mk 0 (.cons (.num 1) .nil)) (.num 0) none 1 = .error .notCallable ∧
    JsList.update (.mk 0 (.cons (.num 1) .nil)) (.num 3) none 1
      = .ok (.mk 0 (.cons (.num 1) .nil), 1) ∧
    deriveChecked 4 none ⟨[], [], [], none⟩ = .error .notCallable := by
  obtain ⟨h1, h2, h3, h4, h5, h6⟩ :=
    claim6_amended (.mk 0 .nil) (.mk 0 (.cons (.num 1) .nil)) (.str "a") 0
      [.str "a"] [] 1 4 ⟨[], [], [], none⟩
  obtain ⟨_, _, _, h4b, h5b, _⟩ :=
    claim6_amended (.mk 0 .nil) (.mk 0 (.cons (.num 1) .nil)) (.str "a") 3
      [.str "a"] [] 1 4 ⟨[], [], [], none⟩
  exact ⟨h1, h2, h3, h4 (fun h => JsValue.noConfusion h), h5b rfl, h6⟩

/-- C7: writing a Signal to a value strictly equal to its current value
does nothing: the world is returned unchanged, so no registered dependent
runs and an observation counter at 0 stays at 0. -/
theorem claim7_change_suppression (fuel s i : Nat) (w : RWorld) (v : JsValue)
    (hv : jsEq (getSig w s).val v = true) (hc : ctrVal w i = 0) :
    writeSig fuel s v w = some w ∧
    (writeSig fuel s v w).map (fun w1 => ctrVal w1 i) = some 0 := by
  simp [writeSig, hv, hc]

/-- C7 witness: a signal holding 1 with a counter callback registered as
dependent; writing 1 again returns the world unchanged and the counter
stays 0. -/
theorem claim7_change_suppression_witness :
    writeSig 5 0 (.num 1) ⟨[⟨.num 1, [.cb 0]⟩], [], [0], none⟩
      = some ⟨[⟨.num 1, [.cb 0]⟩], [], [0], none⟩ ∧
    (writeSig 5 0 (.num 1) ⟨[⟨.num 1, [.cb 0]⟩], [], [0], none⟩).map
      (fun w1 => ctrVal w1 0) = some 0 :=
  claim7_change_suppression 5 0 0 ⟨[⟨.num 1, [.cb 0]⟩], [], [0], none⟩ (.num 1) rfl rfl

/-- C8: a mutator touches nothing off the written path: after
m2 = m1.set(ka, x), reading any other key kb of m2 yields exactly the
value (same allocation id, hence same reference) that m1 holds at kb. The
receiver m1 is a pure value in this embedding, so it is never altered. -/
theorem claim8_sibling_branches_untouched (m1 : JsMap) (x : JsValue)
    (ka kb : String) (c : Nat) (hne : kb ≠ ka) :
    JsMap.get (JsMap.set m1 (.str ka) x c).1 (.str kb) .undef
      = JsMap.get m1 (.str kb) .undef := by
  cases m1 with
  | mk i es =>
      rcases hfj : fromJS x c with ⟨v2, c2⟩
      simp [JsMap.set, hfj, JsMap.get, JsMap.entriesOf, keyStr,
        lookup_setEntry_ne es ka kb v2 hne]

/-- C8 witness: a two-key map with keys a and b; setting a leaves the
branch at b identical. -/
theorem claim8_sibling_branches_untouched_witness :
    JsMap.get (JsMap.set
        (.mk 0 (.cons "a" (.num 1) (.cons "b" (.objv (.mk 1 .nil)) .nil)))
        (.str "a") (.num 2) 5).1 (.str "b") .undef
      = JsMap.get (.mk 0 (.cons "a" (.num 1) (.cons "b" (.objv (.mk 1 .nil)) .nil)))
        (.str "b") .undef :=
  claim8_sibling_branches_untouched
    (.mk 0 (.cons "a" (.num 1) (.cons "b" (.objv (.mk 1 .nil)) .nil)))
    (.num 2) "a" "b" 5 (by decide)

/-- C9: direct construction stores supplied values raw: the constructor
copies the data without conversion, so get returns exactly the supplied
value (same allocation id, hence the same reference), a plain object or
array stored this way reports isImmutable false, while the same value
assigned through a mutator would first pass through fromJS, which always
yields a persistent container. -/
theorem claim9_ctor_stores_raw (d : JsEntries) (k : String) (v : JsValue) (c : Nat)
    (hk : lookupEntry d k = some v)
    (a : JsElems) (i : Nat) (u : JsValue) (c2 : Nat) (hi : getAt a i = some u) :
    JsMap.get (JsMap.ofData d c).1 (.str k) .undef = v ∧
    JsList.get (JsList.ofData a c2).1 (.num (i : Int)) .undef = u ∧
    (∀ o : JsObj, isImmutable (.objv o) = false) ∧
    (∀ ar : JsArr, isImmutable (.arrv ar) = false) ∧
    (∀ (o : JsObj) (c3 : Nat), isImmutable (fromJS (.objv o) c3).1 = true) ∧
    (∀ (ar : JsArr) (c3 : Nat), isImmutable (fromJS (.arrv ar) c3).1 = true) := by
  refine ⟨?_, ?_, fun o => rfl, fun ar => rfl, ?_, ?_⟩
  · simp [JsMap.ofData, JsMap.get, JsMap.entriesOf, keyStr, hk]
  · have hlt := getAt_lt a i u hi
    have h0 : (0 : Int) ≤ (i : Int) := Int.natCast_nonneg i
    have h1 : (i : Int) < ((lenEl a : Nat) : Int) := by exact_mod_cast hlt
    simp [JsList.ofData, JsList.get, JsList.getNum, JsList.elemsOf, h0, h1, hi]
  · intro o c3
    cases o with
    | mk i2 es =>
        rcases hfe : fromJSEntries es c3 with ⟨es2, c4⟩
        simp [fromJS, hfe, isImmutable]
  · intro ar c3
    cases ar with
    | mk i2 es =>
        rcases hfe : fromJSElems es c3 with ⟨es2, c4⟩
        simp [fromJS, hfe, isImmutable]

/-- C9 witness: a map constructed from one object-valued entry and a list
constructed from one array-valued element. -/
theorem claim9_ctor_stores_raw_witness :
    JsMap.get (JsMap.ofData (.cons "k" (.objv (.mk 5 .nil)) .nil) 9).1
      (.str "k") .undef = .objv (.mk 5 .nil) ∧
    JsList.get (JsList.ofData (.cons (.arrv (.mk 6 .nil)) .nil) 9).1
      (.num ((0 : Nat) : Int)) .undef = .arrv (.mk 6 .nil) ∧
    (∀ o : JsObj, isImmutable (.objv o) = false) ∧
    (∀ ar : JsArr, isImmutable (.arrv ar) = false) ∧
    (∀ (o : JsObj) (c3 : Nat), isImmutable (fromJS (.objv o) c3).1 = true) ∧
    (∀ (ar : JsArr) (c3 : Nat), isImmutable (fromJS (.arrv ar) c3).1 = true) :=
  claim9_ctor_stores_raw (.cons "k" (.objv (.mk 5 .nil)) .nil) "k"
    (.objv (.mk 5 .nil)) 9 rfl (.cons (.arrv (.mk 6 .nil)) .nil) 0
    (.arrv (.mk 6 .nil)) 9 rfl

/-- A path whose numeric segments are all 0: the only indices the source
can materialize into a freshly created empty List (any other index makes
the final List.set call an out-of-range no-op that discards the branch). -/
def matOk : List PathKey → Bool
  | [] => true
  | .num n :: rest => n == 0 && matOk rest
  | .str _ :: rest => matOk rest

/-- The instanceof ImmutableSequence test. -/
def isSeqInstance : JsValue → Bool
  | .listv _ => true
  | _ => false

/-- The instanceof ImmutableMap test. -/
def isMapInstance : JsValue → Bool
  | .mapv _ => true
  | _ => false

theorem mapSetIn_cons_imm (m : JsMap) (k : PathKey) (p : List PathKey)
    (v : JsValue) (c : Nat) :
    isImmutable (JsMap.setIn m (k :: p) v c).1 = true := by
  cases p with
  | nil => rfl
  | cons k2 rest2 => rfl

theorem listSetIn_cons_imm (l : JsList) (k : PathKey) (p : List PathKey)
    (v : JsValue) (c : Nat) :
    isImmutable (JsList.setIn l (k :: p) v c).1 = true := by
  cases k with
  | str s => rfl
  | num n =>
      cases p with
      | nil =>
          by_cases hn : n < 0
          · unfold JsList.setIn; simp [hn, isImmutable]
          · unfold JsList.setIn; simp [hn, isImmutable]
      | cons k2 rest2 =>
          by_cases hn : n < 0
          · unfold JsList.setIn; simp [hn, isImmutable]
          · unfold JsList.setIn; simp [hn, isImmutable]

theorem listStep (cid c : Nat) (nb : JsValue) (hImm : isImmutable nb = true)
    (tail : List PathKey) :
    getInAux (JsValue.listv (JsList.set (.mk cid .nil) 0 nb c).1)
      (.num 0 :: tail) .undef = getInAux nb tail .undef := by
  simp [JsList.set, JsList.elemsOf, lenEl, fromJS_immutable nb hImm, setElemAt,
    getInAux, getAt]

theorem mapStepGen (m : JsMap) (k0 : PathKey) (c : Nat) (nb : JsValue)
    (hImm : isImmutable nb = true) (tail : List PathKey) :
    getInAux (JsValue.mapv (JsMap.set m k0 nb c).1) (k0 :: tail) .undef
      = getInAux nb tail .undef := by
  cases m with
  | mk i es =>
      simp [JsMap.set, JsMap.entriesOf, fromJS_immutable nb hImm, getInAux,
        lookup_setEntry_self]

mutual

theorem freshOkL : ∀ (p : List PathKey) (v : JsValue) (cid c : Nat),
    matOk p = true → isScalar v = true →
    getInAux (JsList.setIn (.mk cid .nil) (.num 0 :: p) v c).1 (.num 0 :: p) .undef = v
  | [], v, cid, c, _, hv => by
      unfold JsList.setIn
      simp [JsList.set, JsList.elemsOf, lenEl, fromJS_scalar v hv, setElemAt,
        getInAux, getAt]
  | .num n2 :: rest2, v, cid, c, hmat, hv => by
      simp only [matOk, Bool.and_eq_true, beq_iff_eq] at hmat
      obtain ⟨hn2, hrest⟩ := hmat
      subst hn2
      calc getInAux (JsList.setIn (.mk cid .nil) (.num 0 :: .num 0 :: rest2) v c).1
              (.num 0 :: .num 0 :: rest2) .undef
          = getInAux (JsValue.listv (JsList.set (.mk cid .nil) 0
                (JsList.setIn (.mk c .nil) (.num 0 :: rest2) v (c + 1)).1
                (JsList.setIn (.mk c .nil) (.num 0 :: rest2) v (c + 1)).2).1)
              (.num 0 :: .num 0 :: rest2) .undef := rfl
        _ = getInAux (JsList.setIn (.mk c .nil) (.num 0 :: rest2) v (c + 1)).1
              (.num 0 :: rest2) .undef :=
            listStep cid _ _ (listSetIn_cons_imm (.mk c .nil) (.num 0) rest2 v (c + 1)) _
        _ = v := freshOkL rest2 v c (c + 1) hrest hv
  | .str s2 :: rest2, v, cid, c, hmat, hv => by
      simp only [matOk] at hmat
      calc getInAux (JsList.setIn (.mk cid .nil) (.num 0 :: .str s2 :: rest2) v c).1
              (.num 0 :: .str s2 :: rest2) .undef
          = getInAux (JsValue.listv (JsList.set (.mk cid .nil) 0
                (JsMap.setIn (.mk c .nil) (.str s2 :: rest2) v (c + 1)).1
                (JsMap.setIn (.mk c .nil) (.str s2 :: rest2) v (c + 1)).2).1)
              (.num 0 :: .str s2 :: rest2) .undef := rfl
        _ = getInAux (JsMap.setIn (.mk c .nil) (.str s2 :: rest2) v (c + 1)).1
              (.str s2 :: rest2) .undef :=
            listStep cid _ _ (mapSetIn_cons_imm (.mk c .nil) (.str s2) rest2 v (c + 1)) _
        _ = v := freshOkM rest2 s2 v c (c + 1) hmat hv

theorem freshOkM : ∀ (p : List PathKey) (s : String) (v : JsValue) (cid c : Nat),
    matOk p = true → isScalar v = true →
    getInAux (JsMap.setIn (.mk cid .nil) (.str s :: p) v c).1 (.str s :: p) .undef = v
  | [], s, v, cid, c, _, hv => by
      unfold JsMap.setIn
      simp [JsMap.set, JsMap.entriesOf, fromJS_scalar v hv, setEntry, getInAux,
        keyStr, lookupEntry]
  | .num n2 :: rest2, s, v, cid, c, hmat, hv => by
      simp only [matOk, Bool.and_eq_true, beq_iff_eq] at hmat
      obtain ⟨hn2, hrest⟩ := hmat
      subst hn2
      calc getInAux (JsMap.setIn (.mk cid .nil) (.str s :: .num 0 :: rest2) v c).1
              (.str s :: .num 0 :: rest2) .undef
          = getInAux (JsValue.mapv (JsMap.set (.mk cid .nil) (.str s)
                (JsList.setIn (.mk c .nil) (.num 0 :: rest2) v (c + 1)).1
                (JsList.setIn (.mk c .nil) (.num 0 :: rest2) v (c + 1)).2).1)
              (.str s :: .num 0 :: rest2) .undef := rfl
        _ = getInAux (JsList.setIn (.mk c .nil) (.num 0 :: rest2) v (c + 1)).1
              (.num 0 :: rest2) .undef :=
            mapStepGen (.mk cid .nil) (.str s) _ _
              (listSetIn_cons_imm (.mk c .nil) (.num 0) rest2 v (c + 1)) _
        _ = v := freshOkL rest2 v c (c + 1) hrest hv
  | .str s2 :: rest2, s, v, cid, c, hmat, hv => by
      simp only [matOk] at hmat
      calc getInAux (JsMap.setIn (.mk cid .nil) (.str s :: .str s2 :: rest2) v c).1
              (.str s :: .str s2 :: rest2) .undef
          = getInAux (JsValue.mapv (JsMap.set (.mk cid .nil) (.str s)
                (JsMap.setIn (.mk c .nil) (.str s2 :: rest2) v (c + 1)).1
                (JsMap.setIn (.mk c .nil) (.str s2 :: rest2) v (c + 1)).2).1)
              (.str s :: .str s2 :: rest2) .undef := rfl
        _ = getInAux (JsMap.setIn (.mk c .nil) (.str s2 :: rest2) v (c + 1)).1
              (.str s2 :: rest2) .undef :=
            mapStepGen (.mk cid .nil) (.str s) _ _
              (mapSetIn_cons_imm (.mk c .nil) (.str s2) rest2 v (c + 1)) _
        _ = v := freshOkM rest2 s2 v c (c + 1) hmat hv

end

/-- The branch Map.setIn and List.setIn compute for a multi-segment path:
recurse into an existing immutable child, or materialize a fresh container
whose kind is chosen by the next path segment. -/
def setInBranch (cur : JsValue) (k2 : PathKey) (rest2 : List PathKey)
    (v : JsValue) (c : Nat) : JsValue × Nat :=
  match cur with
  | .mapv m2 => JsMap.setIn m2 (k2 :: rest2) v c
  | .listv l2 => JsList.setIn l2 (k2 :: rest2) v c
  | _ =>
      match k2 with
      | .num _ => JsList.setIn (.mk c .nil) (k2 :: rest2) v (c + 1)
      | _ => JsMap.setIn (.mk c .nil) (k2 :: rest2) v (c + 1)

theorem claim3_default_step (m : JsMap) (k0 k2 : PathKey) (rest2 : List PathKey)
    (v cur : JsValue) (c : Nat) (hcur : isImmutable cur = false)
    (hmat : matOk (k2 :: rest2) = true) (hv : isScalar v = true) :
    getInAux (JsValue.mapv (JsMap.set m k0 (setInBranch cur k2 rest2 v c).1
        (setInBranch cur k2 rest2 v c).2).1) (k0 :: k2 :: rest2) .undef = v := by
  cases k2 with
  | num n2 =>
      simp only [matOk, Bool.and_eq_true, beq_iff_eq] at hmat
      obtain ⟨hn2, hrest⟩ := hmat
      subst hn2
      have hb : setInBranch cur (.num 0) rest2 v c
          = JsList.setIn (.mk c .nil) (.num 0 :: rest2) v (c + 1) := by
        cases cur <;> first | rfl | simp_all [isImmutable]
      rw [hb, mapStepGen m k0 _ _ (listSetIn_cons_imm (.mk c .nil) (.num 0) rest2 v (c + 1))]
      exact freshOkL rest2 v c (c + 1) hrest hv
  | str s2 =>
      simp only [matOk] at hmat
      have hb : setInBranch cur (.str s2) rest2 v c
          = JsMap.setIn (.mk c .nil) (.str s2 :: rest2) v (c + 1) := by
        cases cur <;> first | rfl | simp_all [isImmutable]
      rw [hb, mapStepGen m k0 _ _ (mapSetIn_cons_imm (.mk c .nil) (.str s2) rest2 v (c + 1))]
      exact freshOkM rest2 s2 v c (c + 1) hmat hv

/-- C3 counterexample: the claim quantifies over every container, but an
ImmutableSequence receiver with the absent index 1 as first segment makes
the final List.set call out of range: the materialized branch is
discarded, setPath returns the original empty sequence unchanged, and
getPath yields undefined rather than the written scalar. -/
theorem claim3_counterexample :
    getInAux (JsList.setIn (.mk 0 .nil) [.num 1, .str "b"] (.str "x") 1).1
      [.num 1, .str "b"] .undef = .undef ∧
    JsValue.undef ≠ JsValue.str "x" ∧
    (JsList.setIn (.mk 0 .nil) [.num 1, .str "b"] (.str "x") 1).1
      = .listv (.mk 0 .nil) :=
  ⟨rfl, fun h => JsValue.noConfusion h, rfl⟩

/-- C3 as amended: path materialization as claimed, restricted to an
ImmutableMap receiver (any first segment) and to paths whose numeric
segments after the first are all 0 - the only indices a freshly created
empty Sequence accepts (any other index makes the enclosing set a
discarding no-op, as the counterexample shows). Under these conditions,
when the value at the first segment is absent or a scalar the whole
branch is freshly materialized, each node kind chosen by the next
segment (numeric creates a Sequence, anything else a Map), and
setPath(p, v).getPath(p) returns v. -/
theorem claim3_amended (m : JsMap) (k0 : PathKey) (rest : List PathKey)
    (v : JsValue) (c : Nat) (hrest : rest ≠ []) (hmat : matOk rest = true)
    (hv : isScalar v = true)
    (hcur : isImmutable (JsMap.get m k0 .undef) = false) :
    getInAux (JsMap.setIn m (k0 :: rest) v c).1 (k0 :: rest) .undef = v := by
  obtain ⟨k2, rest2, rfl⟩ := List.exists_cons_of_ne_nil hrest
  have houter : JsMap.setIn m (k0 :: k2 :: rest2) v c
      = ((.mapv (JsMap.set m k0
            (setInBranch (JsMap.get m k0 .undef) k2 rest2 v c).1
            (setInBranch (JsMap.get m k0 .undef) k2 rest2 v c).2).1 : JsValue),
         (JsMap.set m k0
            (setInBranch (JsMap.get m k0 .undef) k2 rest2 v c).1
            (setInBranch (JsMap.get m k0 .undef) k2 rest2 v c).2).2) := rfl
  rw [houter]
  exact claim3_default_step m k0 k2 rest2 v (JsMap.get m k0 .undef) c hcur hmat hv

/-- C3 witness: the spec example. ImmutableMap().setPath(["a", 0, "b"], "x")
read back at the same path gives "x"; the materialized node at "a" is a
Sequence (next segment 0 is numeric) and the node at ["a", 0] is a Map. -/
theorem claim3_amended_witness :
    getInAux (JsMap.setIn (.mk 0 .nil) [.str "a", .num 0, .str "b"] (.str "x") 1).1
      [.str "a", .num 0, .str "b"] .undef = .str "x" ∧
    isSeqInstance (getInAux
      (JsMap.setIn (.mk 0 .nil) [.str "a", .num 0, .str "b"] (.str "x") 1).1
      [.str "a"] .undef) = true ∧
    isMapInstance (getInAux
      (JsMap.setIn (.mk 0 .nil) [.str "a", .num 0, .str "b"] (.str "x") 1).1
      [.str "a", .num 0] .undef) = true :=
  ⟨claim3_amended (.mk 0 .nil) (.str "a") [.num 0, .str "b"] (.str "x") 1
      (List.cons_ne_nil _ _) rfl rfl rfl,
   rfl, rfl⟩

mutual

theorem jsEq_refl : ∀ v : JsValue, nanFree v = true → jsEq v v = true
  | .undef, _ => rfl
  | .null, _ => rfl
  | .bool b, _ => by simp [jsEq]
  | .num n, _ => by simp [jsEq]
  | .nan, h => by simp [nanFree] at h
  | .str s, _ => by simp [jsEq]
  | .mapv (.mk i a), h => by
      simp [jsEq, jsEqEntries_refl a (by simpa [nanFree] using h)]
  | .listv (.mk i a), h => by
      simp [jsEq, jsEqElems_refl a (by simpa [nanFree] using h)]
  | .objv (.mk i a), h => by
      simp [jsEq, jsEqEntries_refl a (by simpa [nanFree] using h)]
  | .arrv (.mk i a), h => by
      simp [jsEq, jsEqElems_refl a (by simpa [nanFree] using h)]

theorem jsEqEntries_refl : ∀ es : JsEntries, nanFreeEntries es = true →
    jsEqEntries es es = true
  | .nil, _ => rfl
  | .cons k v rest, h => by
      simp only [nanFreeEntries, Bool.and_eq_true] at h
      simp [jsEqEntries, jsEq_refl v h.1, jsEqEntries_refl rest h.2]

theorem jsEqElems_refl : ∀ es : JsElems, nanFreeElems es = true →
    jsEqElems es es = true
  | .nil, _ => rfl
  | .cons v rest, h => by
      simp only [nanFreeElems, Bool.and_eq_true] at h
      simp [jsEqElems, jsEq_refl v h.1, jsEqElems_refl rest h.2]

end

theorem entryEq_refl : ∀ v : JsValue, nanFree v = true → entryEq v v = true := by
  intro v h
  cases v with
  | undef => rfl
  | null => rfl
  | bool b => simp [entryEq, isImmutable, jsEq]
  | num n => simp [entryEq, isImmutable, jsEq]
  | nan => simp [nanFree] at h
  | str s => simp [entryEq, isImmutable, jsEq]
  | mapv m =>
      cases m with
      | mk i es =>
          simp [entryEq, isImmutable, equalsVal, mapEquals, jsEq_refl _ h]
  | listv l =>
      cases l with
      | mk i es =>
          simp [entryEq, isImmutable, equalsVal, listEquals, jsEq_refl _ h]
  | objv o => cases o with | mk i es => simp [entryEq, isImmutable, jsEq_refl _ h]
  | arrv ar => cases ar with | mk i es => simp [entryEq, isImmutable, jsEq_refl _ h]

theorem eqElems_refl : ∀ es : JsElems, nanFreeElems es = true →
    eqElems es es = true
  | .nil, _ => rfl
  | .cons v rest, h => by
      simp only [nanFreeElems, Bool.and_eq_true] at h
      show (entryEq v v && eqElems rest rest) = true
      simp [entryEq_refl v h.1, eqElems_refl rest h.2]

theorem eqElems_append : ∀ (as2 bs : JsElems) (x y : JsValue),
    eqElems as2 bs = true → entryEq x y = true →
    eqElems (appendEl as2 x) (appendEl bs y) = true
  | .nil, .nil, x, y, _, hxy => by
      show (entryEq x y && eqElems .nil .nil) = true
      simp [hxy, eqElems]
  | .cons v r, .cons ov or2, x, y, h, hxy => by
      have h2 : (entryEq v ov && eqElems r or2) = true := h
      simp only [Bool.and_eq_true] at h2
      show (entryEq v ov && eqElems (appendEl r x) (appendEl or2 y)) = true
      simp [h2.1, eqElems_append r or2 x y h2.2 hxy]
  | .nil, .cons ov or2, x, y, h, _ => by simp [eqElems] at h
  | .cons v r, .nil, x, y, h, _ => by simp [eqElems] at h

theorem lenEl_append : ∀ (es : JsElems) (x : JsValue),
    lenEl (appendEl es x) = lenEl es + 1
  | .nil, x => rfl
  | .cons v rest, x => by simp [appendEl, lenEl, lenEl_append rest x]

theorem hasKey_fromJSEntries : ∀ (es : JsEntries) (c : Nat) (k : String),
    hasKey (fromJSEntries es c).1 k = hasKey es k
  | .nil, c, k => rfl
  | .cons k2 v rest, c, k => by
      simp [fromJSEntries, hasKey, hasKey_fromJSEntries rest _ k]

theorem lenE_fromJSEntries : ∀ (es : JsEntries) (c : Nat),
    lenE (fromJSEntries es c).1 = lenE es
  | .nil, c => rfl
  | .cons k v rest, c => by
      simp [fromJSEntries, lenE, lenE_fromJSEntries rest]

theorem lenEl_fromJSElems : ∀ (es : JsElems) (c : Nat),
    lenEl (fromJSElems es c).1 = lenEl es
  | .nil, c => rfl
  | .cons v rest, c => by
      simp [fromJSElems, lenEl, lenEl_fromJSElems rest]

theorem eqEntries_skip : ∀ (as2 os : JsEntries) (k : String) (v : JsValue),
    hasKey as2 k = false →
    eqEntries as2 (.cons k v os) = eqEntries as2 os
  | .nil, os, k, v, _ => rfl
  | .cons k2 v2 rest, os, k, v, h => by
      simp only [hasKey, Bool.or_eq_false_iff, decide_eq_false_iff_not] at h
      obtain ⟨h1, h2⟩ := h
      have hne : ¬ (k = k2) := fun hh => h1 hh.symm
      simp [eqEntries, lookupEntry, hne, eqEntries_skip rest os k v h2]

mutual

theorem fromJS_eqv : ∀ (v : JsValue) (c1 c2 : Nat), wfV v = true → nanFree v = true →
    entryEq (fromJS v c1).1 (fromJS v c2).1 = true
  | .undef, c1, c2, _, hn => entryEq_refl _ hn
  | .null, c1, c2, _, hn => entryEq_refl _ hn
  | .bool b, c1, c2, _, hn => entryEq_refl _ hn
  | .num n, c1, c2, _, hn => entryEq_refl _ hn
  | .nan, c1, c2, _, hn => by simp [nanFree] at hn
  | .str s, c1, c2, _, hn => entryEq_refl _ hn
  | .mapv m, c1, c2, _, hn => entryEq_refl _ hn
  | .listv l, c1, c2, _, hn => entryEq_refl _ hn
  | .objv (.mk i es), c1, c2, h, hn => by
      have hw : wfEntries es = true := by simpa [wfV] using h
      have hne : nanFreeEntries es = true := by simpa [nanFree] using hn
      have he := fromJS_eqvEntries es c1 c2 hw hne
      simp [fromJS, entryEq, isImmutable, equalsVal, mapEquals, JsMap.entriesOf,
        lenE_fromJSEntries, he]
  | .arrv (.mk i es), c1, c2, h, hn => by
      have hw : wfElems es = true := by simpa [wfV] using h
      have hne : nanFreeElems es = true := by simpa [nanFree] using hn
      have he := fromJS_eqvElems es c1 c2 hw hne
      simp [fromJS, entryEq, isImmutable, equalsVal, listEquals, JsList.elemsOf,
        lenEl_fromJSElems, he]

theorem fromJS_eqvEntries : ∀ (es : JsEntries) (c1 c2 : Nat), wfEntries es = true →
    nanFreeEntries es = true →
    eqEntries (fromJSEntries es c1).1 (fromJSEntries es c2).1 = true
  | .nil, c1, c2, _, _ => rfl
  | .cons k v rest, c1, c2, h, hn => by
      simp only [wfEntries, Bool.and_eq_true, Bool.not_eq_true'] at h
      obtain ⟨⟨hk, hv⟩, hr⟩ := h
      simp only [nanFreeEntries, Bool.and_eq_true] at hn
      have h1 : (if isImmutable (fromJS v c1).1 && isImmutable (fromJS v c2).1
          then equalsVal (fromJS v c1).1 (fromJS v c2).1
          else jsEq (fromJS v c1).1 (fromJS v c2).1) = true :=
        fromJS_eqv v c1 c2 hv hn.1
      have h2 := fromJS_eqvEntries rest (fromJS v c1).2 (fromJS v c2).2 hr hn.2
      have hskip := eqEntries_skip (fromJSEntries rest (fromJS v c1).2).1
        (fromJSEntries rest (fromJS v c2).2).1 k (fromJS v c2).1
        (by rw [hasKey_fromJSEntries]; exact hk)
      have hlook : lookupEntry (JsEntries.cons k (fromJS v c2).1
          (fromJSEntries rest (fromJS v c2).2).1) k = some (fromJS v c2).1 := by
        simp [lookupEntry]
      simp only [fromJSEntries, eqEntries, hlook, hskip, h1, h2]
      simp

theorem fromJS_eqvElems : ∀ (es : JsElems) (c1 c2 : Nat), wfElems es = true →
    nanFreeElems es = true →
    eqElems (fromJSElems es c1).1 (fromJSElems es c2).1 = true
  | .nil, c1, c2, _, _ => rfl
  | .cons v rest, c1, c2, h, hn => by
      simp only [wfElems, Bool.and_eq_true] at h
      obtain ⟨hv, hr⟩ := h
      simp only [nanFreeElems, Bool.and_eq_true] at hn
      have h1 : (if isImmutable (fromJS v c1).1 && isImmutable (fromJS v c2).1
          then equalsVal (fromJS v c1).1 (fromJS v c2).1
          else jsEq (fromJS v c1).1 (fromJS v c2).1) = true :=
        fromJS_eqv v c1 c2 hv hn.1
      have h2 := fromJS_eqvElems rest (fromJS v c1).2 (fromJS v c2).2 hr hn.2
      simp only [fromJSElems, eqElems, h1, h2]
      simp

end

/-- C10 counterexample: NaN. The equals method compares non-immutable
elements with strict equality, which is irreflexive at NaN, so for the
empty sequence s and v = NaN (with n = 0 = length),
s.push(NaN).equals(s.set(0, NaN)) is false although both results hold one
NaN element - the claim requires it to be true for every s and v. -/
theorem claim10_counterexample :
    equalsVal (.listv (JsList.push (.mk 0 .nil) .nan 1).1)
      (.listv (JsList.set (.mk 0 .nil) 0 .nan
        (JsList.push (.mk 0 .nil) .nan 1).2).1) ≠ true :=
  fun h => Bool.noConfusion h

/-- C10 as amended: push appends exactly like set-at-length. With the same
allocation counter the two calls return the identical pair, so the result
shape facts hold for every value: the last element is fromJS(value), the
first n elements are the very element values of the receiver (same
references), and the length grows by one. The equals comparison of the
two results evaluated in sequence as one JS expression would (the second
call starting from the counter the first returned) is true provided no
NaN occurs in the receiver elements or in the pushed value - strict
equality is irreflexive at NaN, so any NaN makes equals false, as the
counterexample shows - and the pushed value carries no duplicate object
keys (a real JS object never does). -/
theorem claim10_push_is_set_at_length (l : JsList) (v : JsValue) (c : Nat)
    (hwf : wfV v = true) (hnv : nanFree v = true)
    (hnl : nanFreeElems l.elemsOf = true) :
    JsList.push l v c = JsList.set l (lenEl l.elemsOf : Int) v c ∧
    (JsList.push l v c).1
      = JsList.mk (fromJS v c).2 (appendEl l.elemsOf (fromJS v c).1) ∧
    lenEl (JsList.push l v c).1.elemsOf = lenEl l.elemsOf + 1 ∧
    equalsVal (.listv (JsList.push l v c).1)
      (.listv (JsList.set l (lenEl l.elemsOf : Int) v (JsList.push l v c).2).1)
      = true := by
  have hguard : ¬ ((lenEl l.elemsOf : Int) < 0 ∨
      (lenEl l.elemsOf : Int) < (lenEl l.elemsOf : Int)) := by omega
  have hset : ∀ c2 : Nat, JsList.set l (lenEl l.elemsOf : Int) v c2
      = (JsList.mk (fromJS v c2).2 (appendEl l.elemsOf (fromJS v c2).1),
         (fromJS v c2).2 + 1) := by
    intro c2
    simp [JsList.set, hguard, setElemAt_len]
  refine ⟨?_, rfl, ?_, ?_⟩
  · rw [hset c]
    rfl
  · simp [JsList.push, JsList.elemsOf, lenEl_append]
  · rw [hset ((JsList.push l v c).2)]
    show listEquals (.mk (fromJS v c).2 (appendEl l.elemsOf (fromJS v c).1))
        (.mk (fromJS v (JsList.push l v c).2).2
          (appendEl l.elemsOf (fromJS v (JsList.push l v c).2).1)) = true
    have happ := eqElems_append l.elemsOf l.elemsOf (fromJS v c).1
        (fromJS v (JsList.push l v c).2).1 (eqElems_refl l.elemsOf hnl)
        (fromJS_eqv v c ((JsList.push l v c).2) hwf hnv)
    simp [listEquals, lenEl_append, happ]

/-- C10 witness: a one-element sequence holding 1 pushed with a plain
object value (which fromJS converts), checked against set at
index 1 = length; no NaN occurs anywhere. -/
theorem claim10_push_is_set_at_length_witness :
    JsList.push (.mk 0 (.cons (.num 1) .nil))
        (.objv (.mk 9 (.cons "a" (.num 2) .nil))) 3
      = JsList.set (.mk 0 (.cons (.num 1) .nil))
          (lenEl (JsList.mk 0 (.cons (.num 1) .nil)).elemsOf : Int)
          (.objv (.mk 9 (.cons "a" (.num 2) .nil))) 3 ∧
    (JsList.push (.mk 0 (.cons (.num 1) .nil))
        (.objv (.mk 9 (.cons "a" (.num 2) .nil))) 3).1
      = JsList.mk (fromJS (.objv (.mk 9 (.cons "a" (.num 2) .nil))) 3).2
          (appendEl (JsList.mk 0 (.cons (.num 1) .nil)).elemsOf
            (fromJS (.objv (.mk 9 (.cons "a" (.num 2) .nil))) 3).1) ∧
    lenEl (JsList.push (.mk 0 (.cons (.num 1) .nil))
        (.objv (.mk 9 (.cons "a" (.num 2) .nil))) 3).1.elemsOf
      = lenEl (JsList.mk 0 (.cons (.num 1) .nil)).elemsOf + 1 ∧
    equalsVal
      (.listv (JsList.push (.mk 0 (.cons (.num 1) .nil))
        (.objv (.mk 9 (.cons "a" (.num 2) .nil))) 3).1)
      (.listv (JsList.set (.mk 0 (.cons (.num 1) .nil))
        (lenEl (JsList.mk 0 (.cons (.num 1) .nil)).elemsOf : Int)
        (.objv (.mk 9 (.cons "a" (.num 2) .nil)))
        (JsList.push (.mk 0 (.cons (.num 1) .nil))
          (.objv (.mk 9 (.cons "a" (.num 2) .nil))) 3).2).1) = true :=
  claim10_push_is_set_at_length (.mk 0 (.cons (.num 1) .nil))
    (.objv (.mk 9 (.cons "a" (.num 2) .nil))) 3
    (by simp [wfV, wfEntries, hasKey])
    (by simp [nanFree, nanFreeEntries])
    (by simp [nanFreeElems, nanFree])
